import Mathlib

/-!
Verification of the password-reset token lifecycle and rate limiter of this
repository (`api/password_reset.py` and `api/password_reset_request.py`).

Modelling conventions:
- Wall-clock instants are integers counting seconds; `datetime.now()` becomes
  an explicit `now` argument, `timedelta(hours=1)` is `3600` and
  `timedelta(minutes=m)` is `m * 60`.
- The Python dict `self.reset_tokens` is an association list from token
  strings to records; dict lookup, assignment and deletion become `lookupKey`,
  `setKey` and filtering.
- `secrets.token_urlsafe(32)` is modelled by passing the generated random
  token string as an explicit oracle argument.
- Methods that mutate `self` return the resulting store explicitly; a method
  whose body never assigns into the store returns the store it was given.
-/

/-- One entry of `PasswordResetManager.reset_tokens`: the dict
`{'email': ..., 'expiry': ..., 'used': ...}` stored per token. -/
structure TokenRecord where
  email : String
  expiry : Int
  used : Bool
deriving Repr, DecidableEq

/-- The token store `self.reset_tokens`: token string to record. -/
abbrev Store := List (String × TokenRecord)

/-- Association-list lookup, the embedding of Python dict indexing /
`in` tests. -/
def lookupKey {β : Type} (k : String) : List (String × β) → Option β
  | [] => none
  | p :: rest => if p.1 = k then some p.2 else lookupKey k rest

/-- Association-list update, the embedding of Python dict assignment
`d[k] = v`: the key is bound to `v`, any previous binding is dropped. -/
def setKey {β : Type} (k : String) (v : β) (l : List (String × β)) :
    List (String × β) :=
  (k, v) :: l.filter (fun p => p.1 ≠ k)

/-- Result dict of `validate_token`: either `{'valid': False, 'error': e}`
or `{'valid': True, 'email': e}`. -/
inductive ValidationResult where
  | invalid (error : String)
  | valid (email : String)
deriving Repr, DecidableEq

/-- Result dict of `reset_password`: either `{'success': False, 'error': e}`
or `{'success': True, 'email': e, ...}`. -/
inductive ResetResult where
  | failure (error : String)
  | success (email : String)
deriving Repr, DecidableEq

/-- Result dict of `generate_reset_token` (the `reset_url` field is a pure
formatting of the token and is omitted). -/
structure GenerateResult where
  token : String
  expiry : Int
deriving Repr, DecidableEq

/-- Embedding of `PasswordResetManager.validate_token`.  Checks, in the source's order:
empty token, token not in the store, `used` flag, `now > expiry`; otherwise
valid with the bound email.  Each `return` in the source leaves
`self.reset_tokens` untouched, so every branch returns the given store. -/
def validate_token (s : Store) (now : Int) (token : String) :
    ValidationResult × Store :=
  if token = "" then (.invalid "Token is required", s)
  else
    match lookupKey token s with
    | none => (.invalid "Invalid token", s)
    | some token_data =>
      if token_data.used then (.invalid "Token already used", s)
      else if now > token_data.expiry then (.invalid "Token has expired", s)
      else (.valid token_data.email, s)

/-- Embedding of `PasswordResetManager.generate_reset_token`.  Raises (`Except.error`) on
an empty email or one without `'@'` (`'@' not in email` is membership of the
character in the string); otherwise stores
`{'email': email, 'expiry': now + 1 hour, 'used': False}` under the fresh
random token (the `token` oracle argument) and returns token and expiry. -/
def generate_reset_token (s : Store) (now : Int) (email : String)
    (token : String) : Except String (GenerateResult × Store) :=
  if email = "" ∨ '@' ∉ email.data then
    .error "Invalid email address"
  else
    let expiry := now + 3600
    .ok ({token := token, expiry := expiry},
         setKey token {email := email, expiry := expiry, used := false} s)

/-- Embedding of `self.reset_tokens[token]['used'] = True`: the in-place mutation of the
record bound to `token`. -/
def markUsed (token : String) (s : Store) : Store :=
  s.map (fun p => if p.1 = token then (p.1, {p.2 with used := true}) else p)

/-- Embedding of `PasswordResetManager.reset_password`.  Re-runs `validate_token`; on an
invalid token returns the same error and the untouched store; then rejects a
password that is empty or shorter than 8 characters without mutating; on
success sets the `used` flag and returns the bound email. -/
def reset_password (s : Store) (now : Int) (token : String)
    (new_password : String) : ResetResult × Store :=
  match validate_token s now token with
  | (.invalid e, s1) => (.failure e, s1)
  | (.valid email, s1) =>
    if new_password = "" ∨ new_password.length < 8 then
      (.failure "Password must be at least 8 characters", s1)
    else
      (.success email, markUsed token s1)

/-- Embedding of `PasswordResetManager.cleanup_expired_tokens`.  The source first collects
every token with `current_time > expiry`, then deletes each collected key and
returns `{'removed': len(expired)}`; on a dict (unique keys) this equals
keeping exactly the non-expired entries and counting the expired ones. -/
def cleanup_expired_tokens (s : Store) (now : Int) : Nat × Store :=
  ((s.filter (fun p => now > p.2.expiry)).length,
   s.filter (fun p => ¬ now > p.2.expiry))

/-- State of `RateLimiter`: policy constants and the dict
`self.requests : email -> list of timestamps`. -/
structure RateLimiter where
  max_requests : Nat
  window_minutes : Nat
  requests : List (String × List Int)
deriving Repr, DecidableEq

/-- Embedding of `RateLimiter.is_allowed`.  Purges the key's timestamps that are not
strictly inside the trailing window (`ts > now - window`), stores the purged
list, rejects without recording when the purged length reaches
`max_requests`, and otherwise appends `now` and admits. -/
def is_allowed (rl : RateLimiter) (now : Int) (email : String) :
    Bool × RateLimiter :=
  let prev := (lookupKey email rl.requests).getD []
  let window_start := now - (rl.window_minutes : Int) * 60
  let purged := prev.filter (fun ts => ts > window_start)
  if purged.length ≥ rl.max_requests then
    (false, {rl with requests := setKey email purged rl.requests})
  else
    (true, {rl with requests := setKey email (purged ++ [now]) rl.requests})

/-- Embedding of `RateLimiter.get_retry_after`.  Returns `None` when the key has no recorded
timestamps; otherwise `max(0, (min of the list + window) - now)` (the Python
`int()` truncation is the identity on whole seconds). -/
def get_retry_after (rl : RateLimiter) (now : Int) (email : String) :
    Option Int :=
  match lookupKey email rl.requests with
  | none => none
  | some [] => none
  | some (t :: ts) =>
    let oldest := ts.foldl min t
    some (max 0 (oldest + (rl.window_minutes : Int) * 60 - now))

/-- Runs a sequence of `is_allowed` calls for one key at the given times,
returning the list of admit/reject answers. -/
def runCalls (rl : RateLimiter) (email : String) : List Int → List Bool
  | [] => []
  | now :: rest =>
    let r := is_allowed rl now email
    r.1 :: runCalls r.2 email rest

/-- The purge step of `is_allowed`: the key's recorded timestamps still
strictly inside the trailing window at `now`. -/
def purgedList (rl : RateLimiter) (now : Int) (email : String) : List Int :=
  ((lookupKey email rl.requests).getD []).filter
    (fun ts => ts > now - (rl.window_minutes : Int) * 60)

/-- An operation of the token manager other than `generate`, with the time
at which it runs and its arguments. -/
inductive Op where
  | validate (now : Int) (token : String)
  | reset (now : Int) (token : String) (new_password : String)
  | cleanup (now : Int)
deriving Repr, DecidableEq

/-- The store transition of one operation. -/
def applyOp (s : Store) : Op → Store
  | .validate now token => (validate_token s now token).2
  | .reset now token pw => (reset_password s now token pw).2
  | .cleanup now => (cleanup_expired_tokens s now).2

/-- The store reached after a sequence of operations. -/
def applyOps (s : Store) (ops : List Op) : Store := ops.foldl applyOp s

/-- Holds when every record bound to `token` carries `used = True`
(vacuously when the token is absent): the token can never again be
consumed. -/
def consumed (token : String) (s : Store) : Bool :=
  s.all (fun p => if p.1 = token then p.2.used else true)


/-! ### Helper lemmas -/

theorem validate_token_snd (s : Store) (now : Int) (token : String) :
    (validate_token s now token).2 = s := by
  unfold validate_token
  split
  · rfl
  · split
    · rfl
    · split
      · rfl
      · split
        · rfl
        · rfl

theorem lookupKey_mem {β : Type} {k : String} {l : List (String × β)} {v : β}
    (h : lookupKey k l = some v) : (k, v) ∈ l := by
  induction l with
  | nil => simp [lookupKey] at h
  | cons p rest ih =>
    cases p with
    | mk a b =>
      rw [lookupKey] at h
      by_cases hp : a = k
      · subst hp
        rw [if_pos rfl] at h
        injection h with h
        subst h
        exact List.mem_cons_self _ _
      · rw [if_neg hp] at h
        exact List.mem_cons_of_mem _ (ih h)

theorem consumed_iff {token : String} {s : Store} :
    consumed token s = true ↔ ∀ p ∈ s, p.1 = token → p.2.used = true := by
  simp only [consumed, List.all_eq_true]
  refine ⟨fun h p hp hk => ?_, fun h p hp => ?_⟩
  · have := h p hp
    rwa [if_pos hk] at this
  · by_cases hk : p.1 = token
    · rw [if_pos hk]; exact h p hp hk
    · rw [if_neg hk]

theorem consumed_markUsed_self (token : String) (s : Store) :
    consumed token (markUsed token s) = true := by
  rw [consumed_iff]
  intro p hp hk
  unfold markUsed at hp
  rcases List.mem_map.mp hp with ⟨q, hq, hfq⟩
  by_cases h : q.1 = token
  · rw [if_pos h] at hfq
    subst hfq
    rfl
  · rw [if_neg h] at hfq
    subst hfq
    exact absurd hk h

theorem consumed_markUsed {token : String} {s : Store} (tok : String)
    (h : consumed token s = true) : consumed token (markUsed tok s) = true := by
  rw [consumed_iff] at h ⊢
  intro p hp hk
  unfold markUsed at hp
  rcases List.mem_map.mp hp with ⟨q, hq, hfq⟩
  by_cases hq1 : q.1 = tok
  · rw [if_pos hq1] at hfq
    subst hfq
    rfl
  · rw [if_neg hq1] at hfq
    subst hfq
    exact h q hq hk

theorem consumed_filter {token : String} {s : Store}
    (q : (String × TokenRecord) → Bool) (h : consumed token s = true) :
    consumed token (s.filter q) = true := by
  rw [consumed_iff] at h ⊢
  intro p hp hk
  exact h p (List.mem_of_mem_filter hp) hk

theorem reset_password_cases (s : Store) (now : Int) (token pw : String) :
    (reset_password s now token pw).2 = s ∨
    (reset_password s now token pw).2 = markUsed token s := by
  unfold reset_password
  rcases hv : validate_token s now token with ⟨r, s1⟩
  have hs : s1 = s := by
    have h2 := validate_token_snd s now token
    rw [hv] at h2
    exact h2
  cases r with
  | invalid e => left; simp [hs]
  | valid em =>
    by_cases hp : pw = "" ∨ pw.length < 8
    · left; simp [hp, hs]
    · right; simp [hp, hs]

theorem applyOp_cases (s : Store) (op : Op) :
    applyOp s op = s ∨ (∃ tok, applyOp s op = markUsed tok s) ∨
    (∃ now, applyOp s op = s.filter (fun p => ¬ now > p.2.expiry)) := by
  cases op with
  | validate now token => left; exact validate_token_snd s now token
  | reset now token pw =>
    rcases reset_password_cases s now token pw with h | h
    · left; exact h
    · right; left; exact ⟨token, h⟩
  | cleanup now => right; right; exact ⟨now, rfl⟩

theorem consumed_applyOp {token : String} {s : Store} (op : Op)
    (h : consumed token s = true) : consumed token (applyOp s op) = true := by
  rcases applyOp_cases s op with heq | ⟨tok, heq⟩ | ⟨now, heq⟩ <;> rw [heq]
  · exact h
  · exact consumed_markUsed tok h
  · exact consumed_filter _ h

theorem consumed_applyOps {token : String} (ops : List Op) {s : Store}
    (h : consumed token s = true) : consumed token (applyOps s ops) = true := by
  induction ops generalizing s with
  | nil => exact h
  | cons op rest ih => exact ih (consumed_applyOp op h)

/-! ### Claim theorems -/

/-- C9: `validate_token` is read-only — whatever token and store state it is
given and whatever result it returns, it leaves the token store completely
unchanged: no record is added, removed or mutated. -/
theorem validate_token_is_read_only (s : Store) (now : Int) (token : String) :
    (validate_token s now token).2 = s := by
  unfold validate_token
  split
  · rfl
  · split
    · rfl
    · split
      · rfl
      · split
        · rfl
        · rfl

/-- C2: `validate_token` fails closed, performing its checks in exactly the
source's order and returning the first failing check's specific reason:
empty token → "Token is required"; token not in the store → "Invalid token";
`used` flag set → "Token already used"; `now > expiry` → "Token has
expired"; otherwise valid together with the email bound to the token. -/
theorem validate_token_check_order (s : Store) (now : Int) (token : String) :
    (token = "" → (validate_token s now token).1 = .invalid "Token is required") ∧
    (token ≠ "" → lookupKey token s = none →
      (validate_token s now token).1 = .invalid "Invalid token") ∧
    (∀ d, token ≠ "" → lookupKey token s = some d → d.used = true →
      (validate_token s now token).1 = .invalid "Token already used") ∧
    (∀ d, token ≠ "" → lookupKey token s = some d → d.used = false →
      now > d.expiry →
      (validate_token s now token).1 = .invalid "Token has expired") ∧
    (∀ d, token ≠ "" → lookupKey token s = some d → d.used = false →
      ¬ now > d.expiry →
      (validate_token s now token).1 = .valid d.email) := by
  refine ⟨fun h => ?_, fun h1 h2 => ?_, fun d h1 h2 h3 => ?_,
    fun d h1 h2 h3 h4 => ?_, fun d h1 h2 h3 h4 => ?_⟩ <;>
    simp [validate_token, *]

/-- C2 witness: a present, unused, unexpired token validates with its bound
email. -/
theorem validate_token_check_order_witness :
    (validate_token [("tok1", ⟨"a@b.com", 1000, false⟩)] 500 "tok1").1 =
      .valid "a@b.com" :=
  (validate_token_check_order [("tok1", ⟨"a@b.com", 1000, false⟩)] 500
    "tok1").2.2.2.2 ⟨"a@b.com", 1000, false⟩ (by decide) (by decide)
    (by decide) (by decide)

/-- C4 counterexample: the claim says a token whose expiry is ≤ now never
validates, including the boundary expiry = now; but the source checks
`datetime.now() > expiry` strictly, so at expiry = now the token still
validates. -/
theorem validate_token_expiry_boundary_counterexample :
    (100 : Int) ≤ 100 ∧
    (validate_token [("t", ⟨"a@b.com", 100, false⟩)] 100 "t").1 =
      .valid "a@b.com" :=
  ⟨by decide, by decide⟩

/-- C4 amended: for every record in the store, if the record's expiry is
strictly less than now then `validate_token` of that token never returns
valid; at the boundary expiry = now the token still validates because the
source compares with strict `now > expiry`. -/
theorem expired_token_never_validates (s : Store) (now : Int) (token : String)
    (d : TokenRecord) (hd : lookupKey token s = some d)
    (hexp : d.expiry < now) :
    ∀ e, (validate_token s now token).1 ≠ .valid e := by
  intro e
  unfold validate_token
  by_cases ht : token = ""
  · simp [ht]
  · rw [if_neg ht, hd]
    by_cases hu : d.used
    · simp [hu]
    · simp [hu, hexp]

/-- C4 amended witness: one second past expiry, the token no longer
validates. -/
theorem expired_token_never_validates_witness :
    (validate_token [("t", ⟨"a@b.com", 100, false⟩)] 101 "t").1 ≠
      .valid "a@b.com" :=
  expired_token_never_validates _ 101 "t" ⟨"a@b.com", 100, false⟩ (by decide)
    (by decide) "a@b.com"

/-- C5: consuming a currently-valid token with a credential shorter than 8
characters fails with the length-policy error and leaves the entire token
store unchanged, so a subsequent consume of the same token with a credential
of length ≥ 8 still succeeds with the bound email. -/
theorem short_password_rejected_without_mutation (s : Store) (now : Int)
    (token pw e : String)
    (hv : (validate_token s now token).1 = .valid e) (hlen : pw.length < 8) :
    reset_password s now token pw =
      (.failure "Password must be at least 8 characters", s) ∧
    ∀ pw2 : String, 8 ≤ pw2.length →
      (reset_password s now token pw2).1 = .success e := by
  have hpair : validate_token s now token = (.valid e, s) :=
    Prod.ext_iff.mpr ⟨hv, validate_token_snd s now token⟩
  constructor
  · unfold reset_password
    rw [hpair]
    simp [Or.inr hlen]
  · intro pw2 h2
    have hne : ¬ (pw2 = "" ∨ pw2.length < 8) := by
      rintro (h | h)
      · subst h; simp at h2
      · omega
    unfold reset_password
    rw [hpair]
    simp [hne]

/-- C5 witness: a 5-character credential is rejected without mutating the
store. -/
theorem short_password_rejected_without_mutation_witness :
    reset_password [("t", ⟨"a@b.com", 100, false⟩)] 50 "t" "short" =
      (.failure "Password must be at least 8 characters",
       [("t", ⟨"a@b.com", 100, false⟩)]) :=
  (short_password_rejected_without_mutation _ 50 "t" "short" "a@b.com"
    (by decide) (by decide)).1

theorem reset_of_validate_invalid {s : Store} {now : Int} {T : String}
    {err : String} (pw : String)
    (h : (validate_token s now T).1 = .invalid err) :
    reset_password s now T pw = (.failure err, s) := by
  have hpair : validate_token s now T = (.invalid err, s) :=
    Prod.ext_iff.mpr ⟨h, validate_token_snd s now T⟩
  unfold reset_password
  rw [hpair]

theorem reset_password_success {s : Store} {now : Int} {T pw e : String}
    {s' : Store} (h : reset_password s now T pw = (.success e, s')) :
    (validate_token s now T).1 = .valid e ∧ s' = markUsed T s := by
  unfold reset_password at h
  rcases hv : validate_token s now T with ⟨r, s1⟩
  rw [hv] at h
  have hs1 : s1 = s := by
    have h2 := validate_token_snd s now T
    rw [hv] at h2
    exact h2
  subst hs1
  cases r with
  | invalid err => simp at h
  | valid em =>
    dsimp only at h
    by_cases hp : pw = "" ∨ pw.length < 8
    · rw [if_pos hp] at h
      simp at h
    · rw [if_neg hp] at h
      injection h with h1 h2
      injection h1 with h1
      subst h1
      subst h2
      exact ⟨rfl, rfl⟩

theorem validate_valid_ne_empty {s : Store} {now : Int} {T e : String}
    (h : (validate_token s now T).1 = .valid e) : T ≠ "" := by
  intro hT
  subst hT
  simp [validate_token] at h

theorem consumed_validate {s : Store} {T : String} (hT : T ≠ "")
    (hc : consumed T s = true) (now : Int) :
    (lookupKey T s = none ∧
      (validate_token s now T).1 = .invalid "Invalid token") ∨
    (∃ d, lookupKey T s = some d ∧
      (validate_token s now T).1 = .invalid "Token already used") := by
  rcases hl : lookupKey T s with _ | d
  · left
    refine ⟨rfl, ?_⟩
    unfold validate_token
    rw [if_neg hT, hl]
  · right
    have hused : d.used = true := consumed_iff.mp hc (T, d) (lookupKey_mem hl) rfl
    refine ⟨d, rfl, ?_⟩
    unfold validate_token
    rw [if_neg hT, hl]
    dsimp only
    rw [if_pos hused]

/-- C1: the USED state is terminal.  Once a `reset_password` of token T has
succeeded, then after any further sequence of operations: T stays consumed;
no `validate_token` of T ever returns valid again; when T's record is still
present, `validate_token` returns invalid with exactly "Token already used";
a second `reset_password` of T never succeeds, never mutates the store, and
when T's record is still present it fails with that same reason. -/
theorem token_used_is_terminal (s0 : Store) (now0 : Int) (T pw0 e : String)
    (s1 : Store) (hsucc : reset_password s0 now0 T pw0 = (.success e, s1))
    (ops : List Op) :
    consumed T (applyOps s1 ops) = true ∧
    (∀ now e2, (validate_token (applyOps s1 ops) now T).1 ≠ .valid e2) ∧
    (∀ now d, lookupKey T (applyOps s1 ops) = some d →
      (validate_token (applyOps s1 ops) now T).1 =
        .invalid "Token already used") ∧
    (∀ now pw, (reset_password (applyOps s1 ops) now T pw).2 =
      applyOps s1 ops) ∧
    (∀ now pw e2,
      (reset_password (applyOps s1 ops) now T pw).1 ≠ .success e2) ∧
    (∀ now pw d, lookupKey T (applyOps s1 ops) = some d →
      (reset_password (applyOps s1 ops) now T pw).1 =
        .failure "Token already used") := by
  obtain ⟨hv, hs1⟩ := reset_password_success hsucc
  have hT : T ≠ "" := validate_valid_ne_empty hv
  subst hs1
  have hall : consumed T (applyOps (markUsed T s0) ops) = true :=
    consumed_applyOps ops (consumed_markUsed_self T s0)
  refine ⟨hall, ?_, ?_, ?_, ?_, ?_⟩
  · intro now e2
    rcases consumed_validate hT hall now with ⟨_, h⟩ | ⟨d, _, h⟩ <;>
      rw [h] <;> simp
  · intro now d hd
    rcases consumed_validate hT hall now with ⟨hnone, _⟩ | ⟨d', hd', h⟩
    · rw [hnone] at hd
      cases hd
    · exact h
  · intro now pw
    rcases consumed_validate hT hall now with ⟨_, h⟩ | ⟨d, _, h⟩ <;>
      rw [reset_of_validate_invalid pw h]
  · intro now pw e2
    rcases consumed_validate hT hall now with ⟨_, h⟩ | ⟨d, _, h⟩ <;>
      rw [reset_of_validate_invalid pw h] <;> simp
  · intro now pw d hd
    rcases consumed_validate hT hall now with ⟨hnone, _⟩ | ⟨d', hd', h⟩
    · rw [hnone] at hd
      cases hd
    · rw [reset_of_validate_invalid pw h]

/-- C1 witness: after a successful consume, a later validate of the same
token reports it already used. -/
theorem token_used_is_terminal_witness :
    (validate_token
      (applyOps [("t", ⟨"a@b.com", 100, true⟩)] [Op.validate 60 "t"])
      70 "t").1 = .invalid "Token already used" :=
  (token_used_is_terminal [("t", ⟨"a@b.com", 100, false⟩)] 50 "t"
    "longenough1" "a@b.com" [("t", ⟨"a@b.com", 100, true⟩)] (by decide)
    [Op.validate 60 "t"]).2.2.1 70 ⟨"a@b.com", 100, true⟩ (by decide)

theorem mem_markUsed_back {t tok : String} {d' : TokenRecord} {s : Store}
    (hp : (t, d') ∈ markUsed tok s) :
    ∃ d, (t, d) ∈ s ∧ d'.email = d.email ∧ d'.expiry = d.expiry ∧
      (d'.used = d.used ∨ d'.used = true) := by
  unfold markUsed at hp
  rcases List.mem_map.mp hp with ⟨⟨a, b⟩, hq, hfq⟩
  dsimp only at hfq
  by_cases h : a = tok
  · rw [if_pos h] at hfq
    injection hfq with h1 h2
    subst h1
    subst h2
    exact ⟨b, hq, rfl, rfl, Or.inr rfl⟩
  · rw [if_neg h] at hfq
    injection hfq with h1 h2
    subst h1
    subst h2
    exact ⟨b, hq, rfl, rfl, Or.inl rfl⟩

theorem mem_markUsed_fwd {t : String} {d : TokenRecord} {s : Store}
    (tok : String) (hp : (t, d) ∈ s) :
    ∃ d', (t, d') ∈ markUsed tok s ∧ d'.email = d.email ∧
      d'.expiry = d.expiry ∧ (d'.used = d.used ∨ d'.used = true) := by
  unfold markUsed
  by_cases h : t = tok
  · refine ⟨{d with used := true}, ?_, rfl, rfl, Or.inr rfl⟩
    have hm := List.mem_map_of_mem
      (fun p : String × TokenRecord =>
        if p.1 = tok then (p.1, {p.2 with used := true}) else p) hp
    simpa [h] using hm
  · refine ⟨d, ?_, rfl, rfl, Or.inl rfl⟩
    have hm := List.mem_map_of_mem
      (fun p : String × TokenRecord =>
        if p.1 = tok then (p.1, {p.2 with used := true}) else p) hp
    simpa [h] using hm

theorem applyOp_mem_back (s : Store) (op : Op) {t : String} {d' : TokenRecord}
    (hp : (t, d') ∈ applyOp s op) :
    ∃ d, (t, d) ∈ s ∧ d'.email = d.email ∧ d'.expiry = d.expiry ∧
      (d'.used = d.used ∨ d'.used = true) := by
  rcases applyOp_cases s op with heq | ⟨tok, heq⟩ | ⟨now, heq⟩ <;> rw [heq] at hp
  · exact ⟨d', hp, rfl, rfl, Or.inl rfl⟩
  · exact mem_markUsed_back hp
  · exact ⟨d', List.mem_of_mem_filter hp, rfl, rfl, Or.inl rfl⟩

theorem applyOp_mem_fwd (s : Store) (op : Op)
    (hop : ∀ now, op ≠ .cleanup now) {t : String} {d : TokenRecord}
    (hp : (t, d) ∈ s) :
    ∃ d', (t, d') ∈ applyOp s op ∧ d'.email = d.email ∧
      d'.expiry = d.expiry ∧ (d'.used = d.used ∨ d'.used = true) := by
  cases op with
  | validate now token =>
    have heq : applyOp s (.validate now token) = s :=
      validate_token_snd s now token
    rw [heq]
    exact ⟨d, hp, rfl, rfl, Or.inl rfl⟩
  | reset now token pw =>
    rcases reset_password_cases s now token pw with h | h
    · simp only [applyOp]
      rw [h]
      exact ⟨d, hp, rfl, rfl, Or.inl rfl⟩
    · simp only [applyOp]
      rw [h]
      exact mem_markUsed_fwd token hp
  | cleanup now => exact absurd rfl (hop now)

/-- C10: the identity and expiry stored in a token record never change: over
any sequence of validate / consume / cleanup operations, every surviving
record traces back to an initial record with the same email and expiry whose
only possible change is the `used` flag being set to `true`; and when the
sequence contains no cleanup, every initial record survives with its email
and expiry intact. -/
theorem record_fields_immutable (ops : List Op) (s : Store) :
    (∀ t d', (t, d') ∈ applyOps s ops →
      ∃ d, (t, d) ∈ s ∧ d'.email = d.email ∧ d'.expiry = d.expiry ∧
        (d'.used = d.used ∨ d'.used = true)) ∧
    ((∀ now, Op.cleanup now ∉ ops) → ∀ t d, (t, d) ∈ s →
      ∃ d', (t, d') ∈ applyOps s ops ∧ d'.email = d.email ∧
        d'.expiry = d.expiry ∧ (d'.used = d.used ∨ d'.used = true)) := by
  induction ops generalizing s with
  | nil =>
    exact ⟨fun t d' h => ⟨d', h, rfl, rfl, Or.inl rfl⟩,
      fun _ t d h => ⟨d, h, rfl, rfl, Or.inl rfl⟩⟩
  | cons op rest ih =>
    constructor
    · intro t d' h
      rcases (ih (applyOp s op)).1 t d' h with ⟨dm, hm, he, hx, hu⟩
      rcases applyOp_mem_back s op hm with ⟨d0, h0, he0, hx0, hu0⟩
      refine ⟨d0, h0, he.trans he0, hx.trans hx0, ?_⟩
      rcases hu with hu | hu
      · rcases hu0 with hu0 | hu0
        · exact Or.inl (hu.trans hu0)
        · exact Or.inr (hu.trans hu0)
      · exact Or.inr hu
    · intro hnc t d h
      have hop : ∀ now, op ≠ .cleanup now := by
        intro now heq
        subst heq
        exact hnc now (List.mem_cons_self _ _)
      rcases applyOp_mem_fwd s op hop h with ⟨d1, h1, he1, hx1, hu1⟩
      have hnc' : ∀ now, Op.cleanup now ∉ rest := fun now hm =>
        hnc now (List.mem_cons_of_mem _ hm)
      rcases (ih (applyOp s op)).2 hnc' t d1 h1 with ⟨d', h', he', hx', hu'⟩
      refine ⟨d', h', he'.trans he1, hx'.trans hx1, ?_⟩
      rcases hu' with hu' | hu'
      · rcases hu1 with hu1 | hu1
        · exact Or.inl (hu'.trans hu1)
        · exact Or.inr (hu'.trans hu1)
      · exact Or.inr hu'

/-- C10 witness: a successful consume leaves the record's email and expiry
intact, only flipping the used flag. -/
theorem record_fields_immutable_witness :
    ∃ d, ("t", d) ∈ ([("t", ⟨"a@b.com", 100, false⟩)] : Store) ∧
      "a@b.com" = d.email ∧ (100 : Int) = d.expiry ∧
      (true = d.used ∨ true = true) :=
  (record_fields_immutable [Op.reset 50 "t" "longenough1"]
    [("t", ⟨"a@b.com", 100, false⟩)]).1 "t" ⟨"a@b.com", 100, true⟩
    (by decide)

theorem lookupKey_eq_none {β : Type} {k : String} {l : List (String × β)} :
    lookupKey k l = none ↔ ∀ p ∈ l, p.1 ≠ k := by
  induction l with
  | nil => simp [lookupKey]
  | cons p rest ih =>
    rw [lookupKey]
    by_cases hp : p.1 = k
    · simp [hp]
    · simp [hp, ih]

theorem lookupKey_setKey_self {β : Type} (k : String) (v : β)
    (l : List (String × β)) : lookupKey k (setKey k v l) = some v := by
  simp [lookupKey, setKey]

/-- C8: `cleanup_expired_tokens` removes exactly the records whose expiry
has passed (`now > expiry`), regardless of the used flag, returns the number
of records it removed, and keeps every other record unchanged and in its
original position. -/
theorem cleanup_expired_removes_exactly_expired (s : Store) (now : Int) :
    (∀ t d, (t, d) ∈ (cleanup_expired_tokens s now).2 ↔
      ((t, d) ∈ s ∧ ¬ now > d.expiry)) ∧
    List.Sublist (cleanup_expired_tokens s now).2 s ∧
    (cleanup_expired_tokens s now).1 + (cleanup_expired_tokens s now).2.length
      = s.length := by
  refine ⟨fun t d => ?_, ?_, ?_⟩
  · simp [cleanup_expired_tokens, List.mem_filter]
  · exact List.filter_sublist _
  · simp only [cleanup_expired_tokens]
    induction s with
    | nil => rfl
    | cons p rest ih =>
      by_cases h : now > p.2.expiry
      · simp [List.filter_cons, h] at ih ⊢
        omega
      · have h2 : now ≤ p.2.expiry := not_lt.mp h
        simp [List.filter_cons, h, h2] at ih ⊢
        omega

/-- C8 witness: with one expired and one live record, cleanup reports one
removal and one survivor out of two. -/
theorem cleanup_expired_removes_exactly_expired_witness :
    (cleanup_expired_tokens
        [("t", ⟨"a@b.com", 100, false⟩), ("u", ⟨"c@d.com", 10, true⟩)] 50).1 +
      (cleanup_expired_tokens
        [("t", ⟨"a@b.com", 100, false⟩), ("u", ⟨"c@d.com", 10, true⟩)] 50).2.length
      = 2 :=
  (cleanup_expired_removes_exactly_expired
    [("t", ⟨"a@b.com", 100, false⟩), ("u", ⟨"c@d.com", 10, true⟩)] 50).2.2

/-- C6: `generate_reset_token` raises the invalid-input error exactly when
the email is empty or lacks an `'@'`; for every email containing `'@'` it
returns the oracle token together with expiry = now + 1 hour (3600 s) and
records the token bound to that email with expiry now + 3600 and
used = false; when the token key is fresh the record is simply added in
front of the untouched store. -/
theorem generate_reset_token_spec (s : Store) (now : Int)
    (email token : String) :
    ((∃ err, generate_reset_token s now email token = .error err) ↔
      (email = "" ∨ '@' ∉ email.data)) ∧
    ('@' ∈ email.data →
      generate_reset_token s now email token =
        .ok ({token := token, expiry := now + 3600},
          setKey token ⟨email, now + 3600, false⟩ s) ∧
      lookupKey token (setKey token (⟨email, now + 3600, false⟩ : TokenRecord) s) =
        some ⟨email, now + 3600, false⟩) ∧
    (lookupKey token s = none →
      setKey token (⟨email, now + 3600, false⟩ : TokenRecord) s =
        (token, ⟨email, now + 3600, false⟩) :: s) := by
  refine ⟨?_, fun hin => ?_, fun hnone => ?_⟩
  · by_cases hc : email = "" ∨ '@' ∉ email.data
    · refine iff_of_true ⟨"Invalid email address", ?_⟩ hc
      rw [generate_reset_token, if_pos hc]
    · refine iff_of_false ?_ hc
      rintro ⟨err, herr⟩
      rw [generate_reset_token, if_neg hc] at herr
      cases herr
  · have hc : ¬ (email = "" ∨ '@' ∉ email.data) := by
      rintro (h | h)
      · subst h
        exact absurd hin (List.not_mem_nil _)
      · exact h hin
    exact ⟨by rw [generate_reset_token, if_neg hc],
      lookupKey_setKey_self token _ s⟩
  · unfold setKey
    rw [List.filter_eq_self.mpr]
    intro p hp
    have := lookupKey_eq_none.mp hnone p hp
    simpa using this

/-- C6 witness: a well-formed email yields a stored record with expiry
one hour from now and used = false. -/
theorem generate_reset_token_spec_witness :
    generate_reset_token [] 0 "a@b.com" "tok" =
      .ok ({token := "tok", expiry := 3600},
        setKey "tok" ⟨"a@b.com", 3600, false⟩ []) ∧
    lookupKey "tok" (setKey "tok" (⟨"a@b.com", 3600, false⟩ : TokenRecord) []) =
      some ⟨"a@b.com", 3600, false⟩ :=
  (generate_reset_token_spec [] 0 "a@b.com" "tok").2.1 (by decide)

theorem foldl_min_le_head (t : Int) (ts : List Int) : ts.foldl min t ≤ t := by
  induction ts generalizing t with
  | nil => exact le_refl t
  | cons u rest ih => exact (ih (min t u)).trans (min_le_left t u)

theorem foldl_min_le_mem (t : Int) {ts : List Int} {x : Int} (hx : x ∈ ts) :
    ts.foldl min t ≤ x := by
  induction ts generalizing t with
  | nil => cases hx
  | cons u rest ih =>
    rcases List.mem_cons.mp hx with rfl | hx
    · exact (foldl_min_le_head (min t x) rest).trans (min_le_right t x)
    · exact ih (min t u) hx

theorem foldl_min_mem (t : Int) (ts : List Int) : ts.foldl min t ∈ t :: ts := by
  induction ts generalizing t with
  | nil => exact List.mem_cons_self t []
  | cons u rest ih =>
    rcases List.mem_cons.mp (ih (min t u)) with h | h
    · rcases le_total t u with hle | hle
      · rw [List.foldl_cons, h, min_eq_left hle]
        exact List.mem_cons_self t _
      · rw [List.foldl_cons, h, min_eq_right hle]
        exact List.mem_cons_of_mem _ (List.mem_cons_self u _)
    · exact List.mem_cons_of_mem _ (List.mem_cons_of_mem _ h)

/-- C7: `get_retry_after` returns none exactly when the key has no recorded
timestamps (absent key or empty list); otherwise it returns
max(0, oldest + window − now) where oldest is the minimum recorded
timestamp for the key. -/
theorem get_retry_after_spec (rl : RateLimiter) (now : Int) (email : String) :
    (get_retry_after rl now email = none ↔
      (lookupKey email rl.requests = none ∨
        lookupKey email rl.requests = some [])) ∧
    (∀ t ts, lookupKey email rl.requests = some (t :: ts) →
      ∃ m, m ∈ t :: ts ∧ (∀ x ∈ t :: ts, m ≤ x) ∧
        get_retry_after rl now email =
          some (max 0 (m + (rl.window_minutes : Int) * 60 - now))) := by
  constructor
  · unfold get_retry_after
    rcases h : lookupKey email rl.requests with _ | l
    · simp
    · cases l with
      | nil => simp
      | cons t ts => simp
  · intro t ts h
    refine ⟨ts.foldl min t, foldl_min_mem t ts, ?_, ?_⟩
    · intro x hx
      rcases List.mem_cons.mp hx with rfl | hx
      · exact foldl_min_le_head x ts
      · exact foldl_min_le_mem t hx
    · unfold get_retry_after
      rw [h]

/-- C7 witness: with recorded timestamps [5, 3] and window 15 min, the wait
is max(0, 3 + 900 − 10) seconds. -/
theorem get_retry_after_spec_witness :
    ∃ m, m ∈ [(5 : Int), 3] ∧ (∀ x ∈ [(5 : Int), 3], m ≤ x) ∧
      get_retry_after ⟨3, 15, [("e", [5, 3])]⟩ 10 "e" =
        some (max 0 (m + (15 : Int) * 60 - 10)) :=
  (get_retry_after_spec ⟨3, 15, [("e", [5, 3])]⟩ 10 "e").2 5 [3] (by decide)

/-- C3: `is_allowed` first purges the key's recorded timestamps down to
those inside the trailing window (every timestamp older than the window is
removed); if the purged sequence has length ≥ max_requests it rejects
without recording anything, otherwise it appends the current time and
admits.  Consequently, with the configured max_requests = 3 and
window_minutes = 15, a key calling more than 3 times within the window is
rejected on the 4th call, and admitted again once the oldest recorded
timestamp ages out of the window, with no manual reset. -/
theorem is_allowed_sliding_window (rl : RateLimiter) (now : Int)
    (email : String) :
    (rl.max_requests ≤ (purgedList rl now email).length →
      is_allowed rl now email =
        (false, ⟨rl.max_requests, rl.window_minutes,
          setKey email (purgedList rl now email) rl.requests⟩)) ∧
    ((purgedList rl now email).length < rl.max_requests →
      is_allowed rl now email =
        (true, ⟨rl.max_requests, rl.window_minutes,
          setKey email (purgedList rl now email ++ [now]) rl.requests⟩)) ∧
    (∀ x, x < now - (rl.window_minutes : Int) * 60 →
      x ∉ purgedList rl now email) ∧
    (∀ t1 t2 t3 t4 t5 : Int, t1 ≤ t2 → t2 ≤ t3 → t3 ≤ t4 → t4 ≤ t5 →
      t4 - 900 < t1 → t1 ≤ t5 - 900 → t5 - 900 < t2 →
      runCalls ⟨3, 15, []⟩ email [t1, t2, t3, t4, t5] =
        [true, true, true, false, true]) := by
  have e1 : purgedList rl now email =
      ((lookupKey email rl.requests).getD []).filter
        (fun ts => ts > now - (rl.window_minutes : Int) * 60) := rfl
  refine ⟨fun h => ?_, fun h => ?_, fun x hx hmem => ?_, ?_⟩
  · simp only [is_allowed]
    rw [← e1, if_pos h]
  · simp only [is_allowed]
    rw [← e1, if_neg (not_le.mpr h)]

  · rw [e1] at hmem
    have := (List.mem_filter.mp hmem).2
    simp at this
    omega
  · intro t1 t2 t3 t4 t5 h12 h23 h34 h45 hw hout hk2
    have k21 : t2 - 900 < t1 := by omega
    have k31 : t3 - 900 < t1 := by omega
    have k32 : t3 - 900 < t2 := by omega
    have k41 : t4 - 900 < t1 := by omega
    have k42 : t4 - 900 < t2 := by omega
    have k43 : t4 - 900 < t3 := by omega
    have k51 : ¬ t5 - 900 < t1 := by omega
    have k52 : t5 - 900 < t2 := by omega
    have k53 : t5 - 900 < t3 := by omega
    have c1 : is_allowed ⟨3, 15, []⟩ t1 email =
        (true, ⟨3, 15, [(email, [t1])]⟩) := by
      simp [is_allowed, lookupKey, setKey]
    have c2 : is_allowed ⟨3, 15, [(email, [t1])]⟩ t2 email =
        (true, ⟨3, 15, [(email, [t1, t2])]⟩) := by
      simp [is_allowed, lookupKey, setKey, k21]
    have c3 : is_allowed ⟨3, 15, [(email, [t1, t2])]⟩ t3 email =
        (true, ⟨3, 15, [(email, [t1, t2, t3])]⟩) := by
      simp [is_allowed, lookupKey, setKey, k31, k32]
    have c4 : is_allowed ⟨3, 15, [(email, [t1, t2, t3])]⟩ t4 email =
        (false, ⟨3, 15, [(email, [t1, t2, t3])]⟩) := by
      simp [is_allowed, lookupKey, setKey, k41, k42, k43]
    have c5 : is_allowed ⟨3, 15, [(email, [t1, t2, t3])]⟩ t5 email =
        (true, ⟨3, 15, [(email, [t2, t3, t5])]⟩) := by
      simp [is_allowed, lookupKey, setKey, k51, k52, k53]
    simp [runCalls, c1, c2, c3, c4, c5]

/-- C3 witness: with max_requests = 3 and window 15 min (900 s), calls at
0, 1, 2, 3 and 900 seconds give admit, admit, admit, reject, admit. -/
theorem is_allowed_sliding_window_witness :
    runCalls ⟨3, 15, []⟩ "user@example.com" [0, 1, 2, 3, 900] =
      [true, true, true, false, true] :=
  (is_allowed_sliding_window ⟨3, 15, []⟩ 0 "user@example.com").2.2.2
    0 1 2 3 900 (by decide) (by decide) (by decide) (by decide) (by decide)
    (by decide) (by decide)
